import Mathlib

/-!
# Verification of the GPM-IMERG download/update scripts

Shallow embedding of `gpm.py` and `util.py` (aus-ref-clim-data-nci/GPM).

The scripts synchronize a local mirror of the GPM-IMERG archive with a remote
HTTP listing.  We model:

* the local filesystem as an association list from paths to file metadata
  (`FS`), where writing shadows earlier entries;
* a `World` supplying the data the network returns (response body sizes and
  `Last-modified` headers) together with the wall-clock instant at which the
  run stamps freshly written files;
* Python exceptions as values of `PyErr`; a fallible computation returns
  `Except (PyErr × FS) _` so that the filesystem state at the moment an
  exception escapes is observable (Python exceptions do not roll back disk
  writes);
* Python string primitives (`str.split`, `str.replace`, `str.zfill`, slicing,
  `int(...)`) as structurally recursive functions on `List Char`, which is
  faithful to Python's code-point semantics and keeps everything
  kernel-computable;
* timestamps as natural numbers denoting UTC instants.  The external
  `dateutil.parser.parse` call is modelled by `parseDate`.
-/

namespace GPM

deriving instance DecidableEq for Except

/-- Metadata of one local file: its modification time (a UTC instant) and its
size in bytes, as reported by `os.path.getmtime` / `os.stat(...).st_size`. -/
structure FileInfo where
  mtime : Nat
  size : Nat
  deriving DecidableEq

/-- The local filesystem: an association list from absolute paths to file
metadata.  A later `FS.write` shadows earlier entries for the same path. -/
abbrev FS := List (String × FileInfo)

/-- Look up a path (first match wins, matching the shadowing of `FS.write`). -/
def FS.lookup : FS → String → Option FileInfo
  | [], _ => none
  | (p, fi) :: rest, q => if q = p then some fi else FS.lookup rest q

/-- Writing a file: `open(fname,'wb').write(...)` replaces any previous
content; modelled by consing a shadowing entry. -/
def FS.write (fs : FS) (p : String) (fi : FileInfo) : FS :=
  (p, fi) :: fs

/-- `os.remove`: drop every entry recorded for the path. -/
def FS.remove (fs : FS) (p : String) : FS :=
  fs.filter (fun x => x.1 ≠ p)

/-- The `status` dictionary threaded through `download_yr`/`process_file`:
`{'new': [], 'updated': [], 'error': []}`. -/
structure Status where
  new : List String
  updated : List String
  error : List String
  deriving DecidableEq

/-- Python exceptions that the modelled code can raise. -/
inductive PyErr where
  /-- `UnboundLocalError` (a `NameError`): a local variable referenced before
  assignment. -/
  | nameError
  /-- `dateutil.parser.ParserError`: the string contains no recognizable
  date. -/
  | parserError (s : String)
  /-- An exception raised by the `requests` library (e.g. `MissingSchema` for
  `req.head(None)`). -/
  | requestsError
  /-- `OSError` from a filesystem call. -/
  | osError
  /-- `ValueError`, e.g. from `int(...)` on a non-numeric string. -/
  | valueError
  /-- `IndexError`, e.g. from `dr[1]` on a one-element list. -/
  | indexError
  deriving DecidableEq

/-- The ambient world of one run: what the network returns and the instant at
which files written during the run are stamped.

* `respSize url` is the byte length of `session.get(url).content`;
* `now` is the run's wall-clock instant, used as the mtime of written files;
* `lastModified url` is the `Last-modified` header a `HEAD` request returns.
-/
structure World where
  respSize : String → Nat
  now : Nat
  lastModified : String → String

/-- One row of a remote subdirectory listing, as extracted by the
BeautifulSoup loop in `download_yr`: the anchor's `href`, the adjacent
last-modified text, and the size field (already through `int(size)`). -/
structure Entry where
  href : String
  last_mod : String
  size : Nat
  deriving DecidableEq

/-- One day-of-year link in the year's `contents.html` page: the anchor text
(matched against the regex `^\d{3}/`), its `href` (used as `subdir`), and the
rows of the subdirectory page it leads to. -/
structure SubLink where
  text : String
  href : String
  entries : List Entry
  deriving DecidableEq

/-! ## Python string primitives -/

/-- Digit-string evaluation: `some` of the value when every character is a
decimal digit, `none` otherwise (also for the empty list, handled by the
callers). -/
def digitsToNat : List Char → Nat → Option Nat
  | [], acc => some acc
  | c :: rest, acc =>
      if c.isDigit then digitsToNat rest (acc * 10 + (c.toNat - 48)) else none

/-- Python `int(s)` restricted to non-negative decimal strings (no sign):
`none` models a raised `ValueError`. -/
def pyToNat (s : String) : Option Nat :=
  match s.data with
  | [] => none
  | l => digitsToNat l 0

/-- Python `int(s)` with an optional leading sign: `none` models a raised
`ValueError`. -/
def pyToInt (s : String) : Option Int :=
  match s.data with
  | [] => none
  | '-' :: rest =>
      match rest with
      | [] => none
      | l => (digitsToNat l 0).map (fun n => -(n : Int))
  | '+' :: rest =>
      match rest with
      | [] => none
      | l => (digitsToNat l 0).map (fun n => (n : Int))
  | l => (digitsToNat l 0).map (fun n => (n : Int))

/-- Models the external `dateutil.parser.parse` call in `check_mdt`: it maps a
last-modified string to a comparable UTC instant and raises `ParserError` on a
string containing no date (e.g. `""`).  The instant is abstracted as a `Nat`
and the parse as decimal parsing; any non-date string yields `none`. -/
def parseDate (s : String) : Option Nat :=
  pyToNat s

/-- Auxiliary for `pySplit`: accumulates the current field (reversed). -/
def pySplitAux (c : Char) : List Char → List Char → List String
  | [], acc => [String.mk acc.reverse]
  | x :: rest, acc =>
      if x = c then String.mk acc.reverse :: pySplitAux c rest []
      else pySplitAux c rest (x :: acc)

/-- Python `s.split(c)` for a one-character separator: always returns at least
one field; `"/".split("/") == ["", ""]`. -/
def pySplit (s : String) (c : Char) : List String :=
  pySplitAux c s.data []

/-- Python `s.zfill(width)`: left-pad with `'0'` to the given width, keeping a
leading sign in front of the padding. -/
def pyZfill (s : String) (width : Nat) : String :=
  let cs := s.data
  if width ≤ cs.length then s
  else
    match cs with
    | [] => String.mk (List.replicate width '0')
    | c :: rest =>
        if c = '-' ∨ c = '+' then
          String.mk (c :: (List.replicate (width - cs.length) '0' ++ rest))
        else
          String.mk (List.replicate (width - cs.length) '0' ++ cs)

/-- Auxiliary for `pyReplace`; the fuel starts at the subject's length, and
every step consumes at least one character of the subject. -/
def replaceAux (pat rep : List Char) : Nat → List Char → List Char
  | _, [] => []
  | 0, l => l
  | fuel + 1, c :: rest =>
      if pat ≠ [] ∧ pat.isPrefixOf (c :: rest) then
        rep ++ replaceAux pat rep fuel ((c :: rest).drop pat.length)
      else
        c :: replaceAux pat rep fuel rest

/-- Python `s.replace(pat, rep)`: replace all non-overlapping occurrences,
left to right (the scripts never call it with an empty pattern). -/
def pyReplace (s pat rep : String) : String :=
  String.mk (replaceAux pat.data rep.data s.data.length s.data)

/-- Python slice `s[:3]`, by code points. -/
def strTake3 (s : String) : String :=
  String.mk (s.data.take 3)

/-- The regex `^\d{3}/` applied to a year-page anchor text. -/
def dayLinkRe (s : String) : Bool :=
  match s.data with
  | a :: b :: c :: d :: _ => a.isDigit && b.isDigit && c.isDigit && d = '/'
  | _ => false

/-- The regex `^3B-HHR.*.HDF5.html$` applied to a file anchor `href`
(the unescaped dots are approximated as the literal dots every real href
contains). -/
def fileHrefRe (s : String) : Bool :=
  "3B-HHR".data.isPrefixOf s.data && "HDF5.html".data.isSuffixOf s.data

/-! ## The program (`util.py` and `gpm.py`) -/

/-- `req.head(furl)` followed by `response.headers['Last-modified']`;
`req.head(None)` (the default `furl`) raises inside `requests`. -/
def headLastModified (w : World) (furl : Option String) : Except PyErr String :=
  match furl with
  | none => .error .requestsError
  | some u => .ok (w.lastModified u)

/-- `util.check_mdt`: compare the local and remote modification times.

Faithful to the source, including the Python truthiness test
`if not remoteModDate:` — which fires both for `None` and for the empty
string, falling back to a `HEAD` request on `furl` (which is `None` when
called from `process_file`). -/
def check_mdt (w : World) (fs : FS) (fpath : String)
    (remoteModDate : Option String) (furl : Option String) :
    Except PyErr Bool :=
  let rmd : Except PyErr String :=
    match remoteModDate with
    | none => headLastModified w furl
    | some s => if s = "" then headLastModified w furl else .ok s
  match rmd with
  | .error e => .error e
  | .ok s =>
      match parseDate s with
      | none => .error (.parserError s)
      | some remote =>
          match FS.lookup fs fpath with
          | none => .error .osError
          | some fi => .ok (decide (fi.mtime < remote))

/-- `gpm.download_file`: fetch `url`, write the body to `fname`, then compare
the on-disk size with the expected `size`; strictly smaller means
`'error'`, otherwise `'fine'`.  The body is written unconditionally, before
the size check. -/
def download_file (w : World) (fs : FS) (url fname : String) (size : Nat) :
    FS × String :=
  let body := w.respSize url
  let fs' := FS.write fs fname ⟨w.now, body⟩
  (fs', if body < size then "error" else "fine")

/-- The local path `f"{data_dir}/{yr}/{fname}"` with
`fname = href.replace('HDF5.html','nc')`. -/
def localNameOf (data_dir : String) (yr : Nat) (href : String) : String :=
  data_dir ++ "/" ++ Nat.repr yr ++ "/" ++ pyReplace href "HDF5.html" "nc"

/-- The download URL built in the new-file branch of `process_file`:
`f"{http_url}/{yr}/" + subdir.replace('contents.html','') +
href.replace('.html','.nc4')`. -/
def furlOf (http_url : String) (yr : Nat) (subdir href : String) : String :=
  http_url ++ "/" ++ Nat.repr yr ++ "/" ++
    pyReplace subdir "contents.html" "" ++ pyReplace href ".html" ".nc4"

/-- `gpm.process_file`: classify one entry against the local filesystem and
act on the classification.

In the update branch the source calls
`download_file(session, furl, ...)`, but `furl` is only assigned in the
new-file branch, so Python raises `UnboundLocalError` right after
`os.remove(local_name)`; the model raises `.nameError` with the file already
removed. -/
def process_file (w : World) (fs : FS) (data_dir : String) (yr : Nat)
    (http_url subdir href last_mod : String) (size : Nat) (status : Status) :
    Except (PyErr × FS) (FS × Status) :=
  let local_name := localNameOf data_dir yr href
  if FS.lookup fs local_name = none then
    let furl := furlOf http_url yr subdir href
    let p := download_file w fs furl local_name size
    if p.2 = "error" then
      .ok (p.1, { status with error := status.error ++ [local_name] })
    else
      .ok (p.1, { status with new := status.new ++ [local_name] })
  else
    match check_mdt w fs local_name (some last_mod) none with
    | .error e => .error (e, fs)
    | .ok update =>
        if update then
          .error (.nameError, FS.remove fs local_name)
        else
          .ok (fs, status)

/-- The inner loop of `download_yr` over the rows of one subdirectory page:
skip anchors not matching the file regex, skip hrefs already in `done_list`,
otherwise record the href and call `process_file`. -/
def processSubdir (w : World) (data_dir : String) (yr : Nat)
    (http_url subdir : String) :
    List Entry → List String → FS → Status → Except (PyErr × FS) (FS × Status)
  | [], _, fs, st => .ok (fs, st)
  | e :: rest, done, fs, st =>
      if fileHrefRe e.href then
        if e.href ∈ done then
          processSubdir w data_dir yr http_url subdir rest done fs st
        else
          match process_file w fs data_dir yr http_url subdir e.href
              e.last_mod e.size st with
          | .error p => .error p
          | .ok (fs', st') =>
              processSubdir w data_dir yr http_url subdir rest
                (done ++ [e.href]) fs' st'
      else
        processSubdir w data_dir yr http_url subdir rest done fs st

/-- The day-filter test of `download_yr`, i.e. the negation of
`days != [] and subdir[:3] not in days`. -/
def keepSubdir (days : List String) (subdir : String) : Bool :=
  decide (days = [] ∨ strTake3 subdir ∈ days)

/-- The outer loop of `download_yr` over the year page's anchors: keep only
links matching `^\d{3}/`, apply the day filter, and run the subdirectory loop
with a fresh `done_list`. -/
def downloadYrAux (w : World) (http_url : String) (yr : Nat)
    (data_dir : String) (days : List String) :
    List SubLink → FS → Status → Except (PyErr × FS) (FS × Status)
  | [], fs, st => .ok (fs, st)
  | link :: rest, fs, st =>
      if dayLinkRe link.text then
        if keepSubdir days link.href then
          match processSubdir w data_dir yr http_url link.href link.entries
              [] fs st with
          | .error p => .error p
          | .ok (fs', st') =>
              downloadYrAux w http_url yr data_dir days rest fs' st'
        else
          downloadYrAux w http_url yr data_dir days rest fs st
      else
        downloadYrAux w http_url yr data_dir days rest fs st

/-- `gpm.download_yr`: run the whole year with an initially empty status
dictionary. -/
def download_yr (w : World) (yearListing : List SubLink) (http_url : String)
    (yr : Nat) (data_dir : String) (days : List String) (fs : FS) :
    Except (PyErr × FS) (FS × Status) :=
  downloadYrAux w http_url yr data_dir days yearListing fs ⟨[], [], []⟩

/-- The day-range handling of `gpm.main`:
`dr = day_range.split("/")`, then if `dr[0]` is non-empty,
`days = [str(i).zfill(3) for i in range(int(dr[0]), int(dr[1]) + 1)]`,
else `days = []`.  The evaluation order of the exceptions follows Python:
`int(dr[0])` (ValueError) before `dr[1]` (IndexError) before `int(dr[1])`
(ValueError). -/
def mk_days (day_range : String) : Except PyErr (List String) :=
  let dr := pySplit day_range '/'
  match dr with
  | [] => .error .indexError
  | d0 :: drest =>
      if d0 = "" then .ok []
      else
        match pyToInt d0 with
        | none => .error .valueError
        | some fromd =>
            match drest with
            | [] => .error .indexError
            | d1 :: _ =>
                match pyToInt d1 with
                | none => .error .valueError
                | some tod =>
                    .ok (((List.range ((tod + 1) - fromd).toNat).map
                      (fun (k : Nat) => fromd + (k : Int))).map
                        (fun i => pyZfill (Int.repr i) 3))

/-- The run structure of `gpm.main` relevant to the day-range argument: the
day list is built from `day_range` before the session is opened and before
any listing is fetched, so a `mk_days` exception aborts the run with the
filesystem untouched. -/
def main_run (w : World) (day_range : String) (yearListing : List SubLink)
    (http_url : String) (yr : Nat) (data_dir : String) (fs : FS) :
    Except (PyErr × FS) (FS × Status) :=
  match mk_days day_range with
  | .error e => .error (e, fs)
  | .ok days => download_yr w yearListing http_url yr data_dir days fs

/-! ## Basic lemmas -/

theorem FS.lookup_write (fs : FS) (p q : String) (fi : FileInfo) :
    FS.lookup (FS.write fs p fi) q = if q = p then some fi else FS.lookup fs q :=
  rfl

theorem parseDate_ne_empty {s : String} {t : Nat} (h : parseDate s = some t) :
    s ≠ "" := by
  intro he
  subst he
  rw [show parseDate "" = none from rfl] at h
  cases h

/-! ## Claim theorems -/

/-- C6: the post-download size check is an inequality, not an equality: a
completed download succeeds (status `'fine'`) exactly when the on-disk size is
at least the expected size and yields status `'error'` exactly when the
on-disk size is strictly smaller. -/
theorem size_check_is_inequality (w : World) (fs : FS) (url fname : String)
    (size : Nat) :
    ∃ fi, FS.lookup (download_file w fs url fname size).1 fname = some fi ∧
      ((download_file w fs url fname size).2 = "error" ↔ fi.size < size) ∧
      ((download_file w fs url fname size).2 = "fine" ↔ size ≤ fi.size) := by
  refine ⟨⟨w.now, w.respSize url⟩, ?_, ?_, ?_⟩
  · simp [download_file, FS.write, FS.lookup]
  · by_cases h : w.respSize url < size <;>
      simp [download_file, h, Nat.le_of_not_lt]
  · by_cases h : w.respSize url < size <;>
      simp [download_file, h, Nat.le_of_not_lt, Nat.not_le_of_lt]

/-- C9: a download whose written size falls short of the expected size leaves
the truncated file on disk: the body is written to the destination before the
size check, the status is `'error'`, and a later existence check on the
resulting filesystem finds the partial file. -/
theorem truncated_download_left_on_disk (w : World) (fs : FS)
    (url fname : String) (size : Nat) (h : w.respSize url < size) :
    download_file w fs url fname size
      = (FS.write fs fname ⟨w.now, w.respSize url⟩, "error") ∧
    FS.lookup (download_file w fs url fname size).1 fname
      = some ⟨w.now, w.respSize url⟩ := by
  constructor
  · simp [download_file, h]
  · simp [download_file, FS.write, FS.lookup]

/-- Witness for C9 at a concrete input: expected size 40, body of 30 bytes. -/
theorem truncated_download_left_on_disk_witness :
    download_file ⟨fun _ => 30, 100, fun _ => "x"⟩ [] "u" "f" 40
      = (FS.write [] "f" ⟨100, 30⟩, "error") ∧
    FS.lookup (download_file ⟨fun _ => 30, 100, fun _ => "x"⟩ [] "u" "f" 40).1 "f"
      = some ⟨100, 30⟩ :=
  truncated_download_left_on_disk ⟨fun _ => 30, 100, fun _ => "x"⟩ [] "u" "f" 40
    (by decide)

/-- C2 (code bug): on an entry classified FetchUpdate (local file exists with
modification time 5, remote last-modified parses to 50), `process_file`
removes the local file and then raises `UnboundLocalError`, because `furl` is
only assigned in the new-file branch: no fetch happens and nothing is appended
to any summary list.  The resulting state shows the file already deleted. -/
theorem update_branch_unbound_furl :
    process_file ⟨fun _ => 1200, 100, fun _ => "x"⟩
        [("d/2020/3B-HHR.a.nc", ⟨5, 10⟩)] "d" 2020 "h"
        "001/contents.html" "3B-HHR.a.HDF5.html" "50" 40 ⟨[], [], []⟩
      = .error (.nameError, []) ∧
    ∀ p, process_file ⟨fun _ => 1200, 100, fun _ => "x"⟩
        [("d/2020/3B-HHR.a.nc", ⟨5, 10⟩)] "d" 2020 "h"
        "001/contents.html" "3B-HHR.a.HDF5.html" "50" 40 ⟨[], [], []⟩
      ≠ .ok p := by
  have h1 : process_file ⟨fun _ => 1200, 100, fun _ => "x"⟩
      [("d/2020/3B-HHR.a.nc", ⟨5, 10⟩)] "d" 2020 "h"
      "001/contents.html" "3B-HHR.a.HDF5.html" "50" 40 ⟨[], [], []⟩
      = .error (.nameError, []) := by decide
  exact ⟨h1, fun p hp => by rw [h1] at hp; exact Except.noConfusion hp⟩

/-- C3 counterexample: with a local file present and the remote last-modified
string empty (the claim's own example of a malformed timestamp), the run does
not append the path to the `error` list — `check_mdt` raises (the falsy string
triggers `req.head(None)` inside `requests`), the exception escapes
`process_file`, and no summary is produced at all. -/
theorem unparseable_timestamp_cex :
    process_file ⟨fun _ => 1200, 100, fun _ => "x"⟩
        [("d/2020/3B-HHR.a.nc", ⟨5, 10⟩)] "d" 2020 "h"
        "001/contents.html" "3B-HHR.a.HDF5.html" "" 40 ⟨[], [], []⟩
      = .error (.requestsError, [("d/2020/3B-HHR.a.nc", ⟨5, 10⟩)]) ∧
    ∀ p, process_file ⟨fun _ => 1200, 100, fun _ => "x"⟩
        [("d/2020/3B-HHR.a.nc", ⟨5, 10⟩)] "d" 2020 "h"
        "001/contents.html" "3B-HHR.a.HDF5.html" "" 40 ⟨[], [], []⟩
      ≠ .ok p := by
  have h1 : process_file ⟨fun _ => 1200, 100, fun _ => "x"⟩
      [("d/2020/3B-HHR.a.nc", ⟨5, 10⟩)] "d" 2020 "h"
      "001/contents.html" "3B-HHR.a.HDF5.html" "" 40 ⟨[], [], []⟩
      = .error (.requestsError, [("d/2020/3B-HHR.a.nc", ⟨5, 10⟩)]) := by decide
  exact ⟨h1, fun p hp => by rw [h1] at hp; exact Except.noConfusion hp⟩

/-- C3 (amended): for every entry whose local file exists and whose remote
last-modified string cannot be parsed, `process_file` raises an unhandled
exception that aborts the run (a `requests` exception for the empty string,
which is falsy and triggers `req.head(None)`, and a `ParserError` otherwise):
no fetch is attempted and the entry is never classified Skip, but the path is
not appended to the `error` list — there is no summary for the run at all. -/
theorem unparseable_timestamp_aborts (w : World) (fs : FS) (data_dir : String)
    (yr : Nat) (http_url subdir href lm : String) (size : Nat) (st : Status)
    (fi : FileInfo)
    (hex : FS.lookup fs (localNameOf data_dir yr href) = some fi)
    (hbad : parseDate lm = none) :
    process_file w fs data_dir yr http_url subdir href lm size st
      = .error ((if lm = "" then PyErr.requestsError else PyErr.parserError lm),
                fs) ∧
    ∀ p, process_file w fs data_dir yr http_url subdir href lm size st
      ≠ .ok p := by
  have h1 : process_file w fs data_dir yr http_url subdir href lm size st
      = .error ((if lm = "" then PyErr.requestsError else PyErr.parserError lm),
                fs) := by
    by_cases he : lm = ""
    · subst he
      simp [process_file, hex, check_mdt, headLastModified]
    · simp [process_file, hex, check_mdt, headLastModified, he, hbad]
  exact ⟨h1, fun p hp => by rw [h1] at hp; exact Except.noConfusion hp⟩

/-- Witness for C3's amended theorem at a concrete input. -/
theorem unparseable_timestamp_aborts_witness :
    process_file ⟨fun _ => 1200, 100, fun _ => "x"⟩
        [("d/2020/3B-HHR.a.nc", ⟨5, 10⟩)] "d" 2020 "h"
        "001/contents.html" "3B-HHR.a.HDF5.html" "garbage" 40 ⟨[], [], []⟩
      = .error ((if "garbage" = "" then PyErr.requestsError
                 else PyErr.parserError "garbage"),
                [("d/2020/3B-HHR.a.nc", ⟨5, 10⟩)]) ∧
    ∀ p, process_file ⟨fun _ => 1200, 100, fun _ => "x"⟩
        [("d/2020/3B-HHR.a.nc", ⟨5, 10⟩)] "d" 2020 "h"
        "001/contents.html" "3B-HHR.a.HDF5.html" "garbage" 40 ⟨[], [], []⟩
      ≠ .ok p :=
  unparseable_timestamp_aborts ⟨fun _ => 1200, 100, fun _ => "x"⟩
    [("d/2020/3B-HHR.a.nc", ⟨5, 10⟩)] "d" 2020 "h"
    "001/contents.html" "3B-HHR.a.HDF5.html" "garbage" 40 ⟨[], [], []⟩
    ⟨5, 10⟩ (by decide) (by decide)

theorem pySplitAux_no_sep (c : Char) :
    ∀ (l acc : List Char), ¬ c ∈ l →
      pySplitAux c l acc = [String.mk (acc.reverse ++ l)] := by
  intro l
  induction l with
  | nil => intro acc _; simp [pySplitAux]
  | cons x rest ih =>
      intro acc h
      have hx : ¬ x = c := by
        intro he
        exact h (he ▸ List.mem_cons_self x rest)
      have hr : ¬ c ∈ rest := fun hc => h (List.mem_cons_of_mem x hc)
      simp only [pySplitAux, if_neg hx, ih (x :: acc) hr]
      simp

theorem pySplit_no_sep (s : String) (h : ¬ '/' ∈ s.data) :
    pySplit s '/' = [s] := by
  rw [pySplit, pySplitAux_no_sep '/' s.data [] h]
  rfl

/-- C10 counterexample: the claim fails as stated on two concrete inputs.
`"abc"` is a non-empty day_range with no separator, yet the run aborts with a
`ValueError` from `int(dr[0])`, not the claimed `IndexError` (the start is
converted before the missing end bound is accessed); and `"/123"` is different
from the default `"/"`, yet it also selects the all-days sentinel, refuting
"only the default `/` selects the sentinel". -/
theorem day_range_no_separator_cex :
    mk_days "abc" = .error .valueError ∧
    mk_days "abc" ≠ .error .indexError ∧
    mk_days "/123" = .ok [] ∧ "/123" ≠ "/" := by
  decide

/-- C10 (amended): a non-empty day_range with no `"/"` splits to the single
field `[s]`; if its start parses as an integer, accessing the missing end
bound raises an unhandled `IndexError`, while a start that does not parse
aborts even earlier with a `ValueError`; either way `main` aborts before any
session is opened or listing fetched (the result does not depend on the
listing and the filesystem is untouched).  Any day_range whose first
`"/"`-field is empty — the default `"/"` included, but also e.g. `"/123"` —
selects the all-days sentinel. -/
theorem day_range_no_separator (s : String) (hne : s ≠ "")
    (hns : ¬ '/' ∈ s.data) :
    pySplit s '/' = [s] ∧
    (∀ i, pyToInt s = some i → mk_days s = .error .indexError) ∧
    (pyToInt s = none → mk_days s = .error .valueError) ∧
    (∀ e, mk_days s = .error e →
      ∀ (w : World) (yl : List SubLink) (hu : String) (yr : Nat)
        (dd : String) (fs : FS),
        main_run w s yl hu yr dd fs = .error (e, fs)) ∧
    (∀ (s2 h2 : String) (t2 : List String),
      pySplit s2 '/' = h2 :: t2 → h2 = "" → mk_days s2 = .ok []) := by
  have hsplit := pySplit_no_sep s hns
  refine ⟨hsplit, ?_, ?_, ?_, ?_⟩
  · intro i hi
    simp [mk_days, hsplit, hne, hi]
  · intro hi
    simp [mk_days, hsplit, hne, hi]
  · intro e he w yl hu yr dd fs
    simp [main_run, he]
  · intro s2 h2 t2 h2eq h2emp
    subst h2emp
    simp [mk_days, h2eq]

/-- Witness for C10's amended theorem at the concrete input `"123"`. -/
theorem day_range_no_separator_witness :
    pySplit "123" '/' = ["123"] ∧
    (∀ i, pyToInt "123" = some i → mk_days "123" = .error .indexError) ∧
    (pyToInt "123" = none → mk_days "123" = .error .valueError) ∧
    (∀ e, mk_days "123" = .error e →
      ∀ (w : World) (yl : List SubLink) (hu : String) (yr : Nat)
        (dd : String) (fs : FS),
        main_run w "123" yl hu yr dd fs = .error (e, fs)) ∧
    (∀ (s2 h2 : String) (t2 : List String),
      pySplit s2 '/' = h2 :: t2 → h2 = "" → mk_days s2 = .ok []) :=
  day_range_no_separator "123" (by decide) (by decide)

/-- Spec-side companion of the `done_list` deduplication: the rows of a
subdirectory listing that survive both the file regex and the
first-occurrence filter, given the names already seen.  Stated from the
spec's words ("deduplicate by entry name before invoking the Decision Engine,
processing each distinct name exactly once") for comparison with
`processSubdir`. -/
def distinctMatchingEntries : List Entry → List String → List Entry
  | [], _ => []
  | e :: rest, seen =>
      if fileHrefRe e.href ∧ ¬ e.href ∈ seen then
        e :: distinctMatchingEntries rest (seen ++ [e.href])
      else
        distinctMatchingEntries rest seen

theorem distinctMatchingEntries_nodup :
    ∀ (entries : List Entry) (seen : List String),
      ((distinctMatchingEntries entries seen).map Entry.href).Nodup ∧
      ∀ h ∈ (distinctMatchingEntries entries seen).map Entry.href,
        ¬ h ∈ seen := by
  intro entries
  induction entries with
  | nil => intro seen; simp [distinctMatchingEntries]
  | cons e rest ih =>
      intro seen
      by_cases hc : fileHrefRe e.href ∧ ¬ e.href ∈ seen
      · obtain ⟨ihn, ihs⟩ := ih (seen ++ [e.href])
        rw [distinctMatchingEntries, if_pos hc, List.map_cons]
        constructor
        · rw [List.nodup_cons]
          exact ⟨fun hmem => ihs e.href hmem
            (List.mem_append_right seen (by simp)), ihn⟩
        · intro h hmem
          rcases List.mem_cons.mp hmem with heq | hm2
          · exact heq ▸ hc.2
          · exact fun hs => ihs h hm2 (List.mem_append_left [e.href] hs)
      · obtain ⟨ihn, ihs⟩ := ih seen
        rw [distinctMatchingEntries, if_neg hc]
        exact ⟨ihn, ihs⟩

/-- C5: the orchestrator deduplicates by entry name before invoking the
decision engine.  Running the subdirectory loop is exactly running it on the
sublist of first occurrences of matching names (later occurrences are skipped
before `process_file` is called), and that sublist contains each distinct
name at most once, so at most one download attempt occurs per distinct name
per subdirectory. -/
theorem dedup_before_decision (w : World) (data_dir : String) (yr : Nat)
    (http_url subdir : String) (entries : List Entry) (done : List String)
    (fs : FS) (st : Status) :
    processSubdir w data_dir yr http_url subdir entries done fs st
      = processSubdir w data_dir yr http_url subdir
          (distinctMatchingEntries entries done) done fs st ∧
    ((distinctMatchingEntries entries done).map Entry.href).Nodup := by
  refine ⟨?_, (distinctMatchingEntries_nodup entries done).1⟩
  induction entries generalizing done fs st with
  | nil => rfl
  | cons e rest ih =>
      by_cases hm : fileHrefRe e.href = true
      · by_cases hd : e.href ∈ done
        · have hc : ¬ (fileHrefRe e.href ∧ ¬ e.href ∈ done) := by
            intro h; exact h.2 hd
          simp only [processSubdir, if_pos hm, if_pos hd,
            distinctMatchingEntries, if_neg hc]
          exact ih done fs st
        · have hc : fileHrefRe e.href ∧ ¬ e.href ∈ done := ⟨hm, hd⟩
          simp only [processSubdir, if_pos hm, if_neg hd,
            distinctMatchingEntries, if_pos hc]
          cases hpf : process_file w fs data_dir yr http_url subdir e.href
              e.last_mod e.size st with
          | error p => rfl
          | ok q =>
              obtain ⟨fs', st'⟩ := q
              exact ih (done ++ [e.href]) fs' st'
      · have hc : ¬ (fileHrefRe e.href ∧ ¬ e.href ∈ done) := by
          intro h; exact hm h.1
        simp only [processSubdir, if_neg hm, distinctMatchingEntries,
          if_neg hc]
        exact ih done fs st

/-- Exhaustive description of the successful outcomes of `process_file`: a
run that returns `.ok` either took the new-file branch (no local file; the
body was written and the path recorded in `error` or `new` according to the
size check) or the skip branch (local file present, remote timestamp parsed,
and local mtime at least the remote instant; nothing changed). -/
theorem process_file_ok_cases (w : World) (fs : FS) (data_dir : String)
    (yr : Nat) (http_url subdir href lm : String) (size : Nat) (st : Status)
    (fs' : FS) (st' : Status)
    (h : process_file w fs data_dir yr http_url subdir href lm size st
          = .ok (fs', st')) :
    (FS.lookup fs (localNameOf data_dir yr href) = none ∧
      fs' = FS.write fs (localNameOf data_dir yr href)
              ⟨w.now, w.respSize (furlOf http_url yr subdir href)⟩ ∧
      ((w.respSize (furlOf http_url yr subdir href) < size ∧
         st' = { st with
                  error := st.error ++ [localNameOf data_dir yr href] }) ∨
       (size ≤ w.respSize (furlOf http_url yr subdir href) ∧
         st' = { st with new := st.new ++ [localNameOf data_dir yr href] })))
    ∨ (∃ fi t, FS.lookup fs (localNameOf data_dir yr href) = some fi ∧
        parseDate lm = some t ∧ t ≤ fi.mtime ∧ fs' = fs ∧ st' = st) := by
  by_cases hl : FS.lookup fs (localNameOf data_dir yr href) = none
  · left
    by_cases hsz : w.respSize (furlOf http_url yr subdir href) < size
    · have hv : process_file w fs data_dir yr http_url subdir href lm size st
          = .ok (FS.write fs (localNameOf data_dir yr href)
                   ⟨w.now, w.respSize (furlOf http_url yr subdir href)⟩,
                 { st with
                    error := st.error ++ [localNameOf data_dir yr href] }) := by
        simp [process_file, download_file, hl, hsz]
      rw [hv] at h
      obtain ⟨h1, h2⟩ := Prod.mk.inj (Except.ok.inj h)
      exact ⟨hl, h1.symm, .inl ⟨hsz, h2.symm⟩⟩
    · have hv : process_file w fs data_dir yr http_url subdir href lm size st
          = .ok (FS.write fs (localNameOf data_dir yr href)
                   ⟨w.now, w.respSize (furlOf http_url yr subdir href)⟩,
                 { st with
                    new := st.new ++ [localNameOf data_dir yr href] }) := by
        simp [process_file, download_file, hl, hsz]
      rw [hv] at h
      obtain ⟨h1, h2⟩ := Prod.mk.inj (Except.ok.inj h)
      exact ⟨hl, h1.symm, .inr ⟨Nat.le_of_not_lt hsz, h2.symm⟩⟩
  · right
    obtain ⟨fi, hfi⟩ := Option.ne_none_iff_exists'.mp hl
    by_cases he : lm = ""
    · subst he
      simp [process_file, hfi, check_mdt, headLastModified] at h
    · cases hp : parseDate lm with
      | none =>
          simp [process_file, hfi, check_mdt, headLastModified, he, hp] at h
      | some t =>
          by_cases hlt : fi.mtime < t
          · simp [process_file, hfi, check_mdt, headLastModified, he, hp,
              hlt] at h
          · have hv : process_file w fs data_dir yr http_url subdir href lm
                size st = .ok (fs, st) := by
              simp [process_file, hfi, check_mdt, headLastModified, he, hp,
                hlt]
            rw [hv] at h
            obtain ⟨h1, h2⟩ := Prod.mk.inj (Except.ok.inj h)
            exact ⟨fi, t, hfi, rfl, Nat.le_of_not_lt hlt, h1.symm, h2.symm⟩

/-- C1: the sync decision for one remote entry is a three-way function of
local state.  If no local file exists at the derived local path the entry is
treated as new (`process_file` goes straight to the download, recording the
path in `new` or `error`); otherwise the update bit computed by `check_mdt`
is exactly "local modification time strictly below the remote instant", and
when the local time is at least the remote instant the entry is skipped with
filesystem and summary unchanged. -/
theorem sync_decision_three_way (w : World) (fs : FS) (data_dir : String)
    (yr : Nat) (http_url subdir href lm : String) (size : Nat) (st : Status)
    (t : Nat) (ht : parseDate lm = some t) :
    (FS.lookup fs (localNameOf data_dir yr href) = none →
      process_file w fs data_dir yr http_url subdir href lm size st =
        (if w.respSize (furlOf http_url yr subdir href) < size then
          .ok (FS.write fs (localNameOf data_dir yr href)
                 ⟨w.now, w.respSize (furlOf http_url yr subdir href)⟩,
               { st with
                  error := st.error ++ [localNameOf data_dir yr href] })
         else
          .ok (FS.write fs (localNameOf data_dir yr href)
                 ⟨w.now, w.respSize (furlOf http_url yr subdir href)⟩,
               { st with
                  new := st.new ++ [localNameOf data_dir yr href] }))) ∧
    (∀ fi, FS.lookup fs (localNameOf data_dir yr href) = some fi →
      check_mdt w fs (localNameOf data_dir yr href) (some lm) none
        = .ok (decide (fi.mtime < t)) ∧
      (t ≤ fi.mtime →
        process_file w fs data_dir yr http_url subdir href lm size st
          = .ok (fs, st))) := by
  have hne : lm ≠ "" := parseDate_ne_empty ht
  constructor
  · intro hnone
    by_cases hsz : w.respSize (furlOf http_url yr subdir href) < size <;>
      simp [process_file, download_file, hnone, hsz]
  · intro fi hfi
    constructor
    · simp [check_mdt, headLastModified, hne, ht, hfi]
    · intro hle
      simp [process_file, hfi, check_mdt, headLastModified, hne, ht,
        Nat.not_lt.mpr hle]

/-- Witness for C1 at a concrete input (remote instant 50). -/
theorem sync_decision_three_way_witness :
    (FS.lookup [("d/2020/3B-HHR.a.nc", ⟨90, 10⟩)]
        (localNameOf "d" 2020 "3B-HHR.a.HDF5.html") = none →
      process_file ⟨fun _ => 1200, 100, fun _ => "x"⟩
          [("d/2020/3B-HHR.a.nc", ⟨90, 10⟩)] "d" 2020 "h"
          "001/contents.html" "3B-HHR.a.HDF5.html" "50" 40 ⟨[], [], []⟩ =
        (if (⟨fun _ => 1200, 100, fun _ => "x"⟩ : World).respSize
              (furlOf "h" 2020 "001/contents.html" "3B-HHR.a.HDF5.html")
            < 40 then
          .ok (FS.write [("d/2020/3B-HHR.a.nc", ⟨90, 10⟩)]
                 (localNameOf "d" 2020 "3B-HHR.a.HDF5.html")
                 ⟨100, (⟨fun _ => 1200, 100, fun _ => "x"⟩ : World).respSize
                   (furlOf "h" 2020 "001/contents.html"
                     "3B-HHR.a.HDF5.html")⟩,
               { (⟨[], [], []⟩ : Status) with
                  error := [] ++ [localNameOf "d" 2020 "3B-HHR.a.HDF5.html"] })
         else
          .ok (FS.write [("d/2020/3B-HHR.a.nc", ⟨90, 10⟩)]
                 (localNameOf "d" 2020 "3B-HHR.a.HDF5.html")
                 ⟨100, (⟨fun _ => 1200, 100, fun _ => "x"⟩ : World).respSize
                   (furlOf "h" 2020 "001/contents.html"
                     "3B-HHR.a.HDF5.html")⟩,
               { (⟨[], [], []⟩ : Status) with
                  new := [] ++ [localNameOf "d" 2020 "3B-HHR.a.HDF5.html"] }))) ∧
    (∀ fi, FS.lookup [("d/2020/3B-HHR.a.nc", ⟨90, 10⟩)]
        (localNameOf "d" 2020 "3B-HHR.a.HDF5.html") = some fi →
      check_mdt ⟨fun _ => 1200, 100, fun _ => "x"⟩
          [("d/2020/3B-HHR.a.nc", ⟨90, 10⟩)]
          (localNameOf "d" 2020 "3B-HHR.a.HDF5.html") (some "50") none
        = .ok (decide (fi.mtime < 50)) ∧
      (50 ≤ fi.mtime →
        process_file ⟨fun _ => 1200, 100, fun _ => "x"⟩
            [("d/2020/3B-HHR.a.nc", ⟨90, 10⟩)] "d" 2020 "h"
            "001/contents.html" "3B-HHR.a.HDF5.html" "50" 40 ⟨[], [], []⟩
          = .ok ([("d/2020/3B-HHR.a.nc", ⟨90, 10⟩)], ⟨[], [], []⟩))) :=
  sync_decision_three_way ⟨fun _ => 1200, 100, fun _ => "x"⟩
    [("d/2020/3B-HHR.a.nc", ⟨90, 10⟩)] "d" 2020 "h" "001/contents.html"
    "3B-HHR.a.HDF5.html" "50" 40 ⟨[], [], []⟩ 50 (by decide)

/-- C7: after an entry's processing completes, its local path appears in
exactly one of the three summary sequences or in none of them, the latter
exactly when the entry was skipped (summary returned unchanged); no completed
entry is recorded twice.  (Paths are counted assuming the path was not
already recorded for an earlier entry.) -/
theorem run_summary_exclusive (w : World) (fs : FS) (data_dir : String)
    (yr : Nat) (http_url subdir href lm : String) (size : Nat)
    (st st' : Status) (fs' : FS)
    (hok : process_file w fs data_dir yr http_url subdir href lm size st
            = .ok (fs', st'))
    (hn : ¬ localNameOf data_dir yr href ∈ st.new)
    (hup : ¬ localNameOf data_dir yr href ∈ st.updated)
    (he : ¬ localNameOf data_dir yr href ∈ st.error) :
    (st' = st ∧
      st'.new.count (localNameOf data_dir yr href)
        + st'.updated.count (localNameOf data_dir yr href)
        + st'.error.count (localNameOf data_dir yr href) = 0) ∨
    ((st' = { st with new := st.new ++ [localNameOf data_dir yr href] } ∨
      st' = { st with error := st.error ++ [localNameOf data_dir yr href] }) ∧
      st'.new.count (localNameOf data_dir yr href)
        + st'.updated.count (localNameOf data_dir yr href)
        + st'.error.count (localNameOf data_dir yr href) = 1) := by
  have hcn : st.new.count (localNameOf data_dir yr href) = 0 :=
    List.count_eq_zero.mpr hn
  have hcu : st.updated.count (localNameOf data_dir yr href) = 0 :=
    List.count_eq_zero.mpr hup
  have hce : st.error.count (localNameOf data_dir yr href) = 0 :=
    List.count_eq_zero.mpr he
  rcases process_file_ok_cases w fs data_dir yr http_url subdir href lm size
      st fs' st' hok with ⟨_, _, ⟨_, hst⟩ | ⟨_, hst⟩⟩ | ⟨_, _, _, _, _, _, hst⟩
  · refine .inr ⟨.inr hst, ?_⟩
    subst hst
    simp [List.count_append, hcn, hcu, hce]
  · refine .inr ⟨.inl hst, ?_⟩
    subst hst
    simp [List.count_append, hcn, hcu, hce]
  · refine .inl ⟨hst, ?_⟩
    subst hst
    simp [hcn, hcu, hce]

/-- Witness for C7 at a concrete input (a successfully downloaded new
file). -/
theorem run_summary_exclusive_witness :
    ((⟨["d/2020/3B-HHR.a.nc"], [], []⟩ : Status) = (⟨[], [], []⟩ : Status) ∧
      (["d/2020/3B-HHR.a.nc"].count (localNameOf "d" 2020 "3B-HHR.a.HDF5.html")
        + ([] : List String).count (localNameOf "d" 2020 "3B-HHR.a.HDF5.html")
        + ([] : List String).count (localNameOf "d" 2020 "3B-HHR.a.HDF5.html")
        = 0)) ∨
    (((⟨["d/2020/3B-HHR.a.nc"], [], []⟩ : Status)
        = { (⟨[], [], []⟩ : Status) with
             new := [] ++ [localNameOf "d" 2020 "3B-HHR.a.HDF5.html"] } ∨
      (⟨["d/2020/3B-HHR.a.nc"], [], []⟩ : Status)
        = { (⟨[], [], []⟩ : Status) with
             error := [] ++ [localNameOf "d" 2020 "3B-HHR.a.HDF5.html"] }) ∧
      (["d/2020/3B-HHR.a.nc"].count (localNameOf "d" 2020 "3B-HHR.a.HDF5.html")
        + ([] : List String).count (localNameOf "d" 2020 "3B-HHR.a.HDF5.html")
        + ([] : List String).count (localNameOf "d" 2020 "3B-HHR.a.HDF5.html")
        = 1)) :=
  run_summary_exclusive ⟨fun _ => 1200, 100, fun _ => "x"⟩ [] "d" 2020 "h"
    "001/contents.html" "3B-HHR.a.HDF5.html" "50" 40 ⟨[], [], []⟩
    ⟨["d/2020/3B-HHR.a.nc"], [], []⟩ [("d/2020/3B-HHR.a.nc", ⟨100, 1200⟩)]
    (by decide) (by decide) (by decide) (by decide)

/-- The canonical 3-character decimal rendering of a number below 1000, used
to reason about `str(i).zfill(3)`. -/
def threeDigits (n : Nat) : String :=
  String.mk [Nat.digitChar (n / 100), Nat.digitChar (n / 10 % 10),
    Nat.digitChar (n % 10)]

set_option maxRecDepth 10000 in
theorem pyZfill_repr_eq_threeDigits :
    ∀ n < 1000, pyZfill (Nat.repr n) 3 = threeDigits n := by
  decide

theorem digitChar_inj :
    ∀ a < 10, ∀ b < 10, Nat.digitChar a = Nat.digitChar b → a = b := by
  decide

theorem threeDigits_inj (m n : Nat) (hm : m < 1000) (hn : n < 1000)
    (h : threeDigits m = threeDigits n) : m = n := by
  have h' := congrArg String.data h
  simp only [threeDigits, List.cons.injEq] at h'
  obtain ⟨h1, h2, h3, -⟩ := h'
  have e1 := digitChar_inj (m / 100) (by omega) (n / 100) (by omega) h1
  have e2 := digitChar_inj (m / 10 % 10) (by omega) (n / 10 % 10) (by omega) h2
  have e3 := digitChar_inj (m % 10) (by omega) (n % 10) (by omega) h3
  omega

theorem zfill_mem_days (f t n : Nat) (ht : t ≤ 999) (hn : n ≤ 999) :
    (pyZfill (Nat.repr n) 3 ∈
      ((List.range (((t : Int) + 1 - (f : Int)).toNat)).map
        (fun (k : Nat) => (f : Int) + (k : Int))).map
          (fun i => pyZfill (Int.repr i) 3))
    ↔ (f ≤ n ∧ n ≤ t) := by
  rw [List.map_map, List.mem_map]
  constructor
  · intro hmem
    obtain ⟨k, hk, heq⟩ := hmem
    rw [List.mem_range] at hk
    simp only [Function.comp] at heq
    have hfk : ((f : Int) + (k : Int)) = ((f + k : Nat) : Int) := by
      push_cast
      ring
    rw [hfk] at heq
    have hrepr : Int.repr ((f + k : Nat) : Int) = Nat.repr (f + k) := rfl
    rw [hrepr] at heq
    have hle : f + k ≤ t := by omega
    have heq3 : threeDigits (f + k) = threeDigits n := by
      rw [← pyZfill_repr_eq_threeDigits (f + k) (by omega),
        ← pyZfill_repr_eq_threeDigits n (by omega)]
      exact heq
    have := threeDigits_inj (f + k) n (by omega) (by omega) heq3
    omega
  · rintro ⟨h1, h2⟩
    refine ⟨n - f, ?_, ?_⟩
    · rw [List.mem_range]
      omega
    · simp only [Function.comp]
      have hc : ((f : Int) + ((n - f : Nat) : Int)) = ((n : Nat) : Int) := by
        omega
      rw [hc]
      rfl

theorem mk_days_ok (dr a b : String) (f t : Nat)
    (hsplit : pySplit dr '/' = [a, b]) (ha : a ≠ "")
    (hf : pyToInt a = some ((f : Nat) : Int))
    (hb : pyToInt b = some ((t : Nat) : Int)) :
    mk_days dr = .ok
      (((List.range (((t : Int) + 1 - (f : Int)).toNat)).map
        (fun (k : Nat) => (f : Int) + (k : Int))).map
          (fun i => pyZfill (Int.repr i) 3)) := by
  simp [mk_days, hsplit, ha, hf, hb]

/-- C8: the day filter is an inclusive range of zero-padded 3-digit
day-of-year strings, with the empty day list as the "all days" sentinel: a
subdirectory whose name's first three characters render a number `n` passes
the filter built from range `f/t` exactly when the filter is the sentinel or
`f ≤ n ≤ t`; in particular filter `"010/012"` keeps exactly the
subdirectories `"010"`, `"011"`, `"012"` among `"009"`–`"013"`. -/
theorem day_filter_inclusive_range (dr a b sub : String) (f t n : Nat)
    (hsplit : pySplit dr '/' = [a, b]) (ha : a ≠ "")
    (hf : pyToInt a = some ((f : Nat) : Int))
    (hb : pyToInt b = some ((t : Nat) : Int))
    (ht : t ≤ 999) (hn : n ≤ 999)
    (hsub : strTake3 sub = pyZfill (Nat.repr n) 3) :
    ∃ days, mk_days dr = .ok days ∧
      ((strTake3 sub ∈ days) ↔ (f ≤ n ∧ n ≤ t)) ∧
      (keepSubdir days sub = true ↔ (days = [] ∨ (f ≤ n ∧ n ≤ t))) := by
  refine ⟨_, mk_days_ok dr a b f t hsplit ha hf hb, ?_, ?_⟩
  · rw [hsub]
    exact zfill_mem_days f t n ht hn
  · rw [keepSubdir, decide_eq_true_eq, hsub, zfill_mem_days f t n ht hn]

/-- Witness for C8: scenario D's filter `"010/012"` against subdirectory
`"011/contents.html"` (day 011 lies inside the range). -/
theorem day_filter_inclusive_range_witness :
    ∃ days, mk_days "010/012" = .ok days ∧
      ((strTake3 "011/contents.html" ∈ days) ↔ (10 ≤ 11 ∧ 11 ≤ 12)) ∧
      (keepSubdir days "011/contents.html" = true
        ↔ (days = [] ∨ (10 ≤ 11 ∧ 11 ≤ 12))) :=
  day_filter_inclusive_range "010/012" "010" "012" "011/contents.html"
    10 12 11 (by decide) (by decide) (by decide) (by decide) (by decide)
    (by decide) (by decide)

/-- A remote entry is *current* in a filesystem: its remote timestamp parses
and the local file at its derived path exists with a modification time at
least the remote instant.  `process_file` classifies a current entry as
Skip. -/
def EntryCurrent (fs : FS) (data_dir : String) (yr : Nat) (e : Entry) : Prop :=
  ∃ fi t, parseDate e.last_mod = some t ∧
    FS.lookup fs (localNameOf data_dir yr e.href) = some fi ∧ t ≤ fi.mtime

theorem process_file_skip (w : World) (fs : FS) (data_dir : String) (yr : Nat)
    (http_url subdir : String) (e : Entry) (st : Status)
    (hcur : EntryCurrent fs data_dir yr e) :
    process_file w fs data_dir yr http_url subdir e.href e.last_mod e.size st
      = .ok (fs, st) := by
  obtain ⟨fi, t, hp, hfi, hle⟩ := hcur
  have hne : e.last_mod ≠ "" := parseDate_ne_empty hp
  simp [process_file, hfi, check_mdt, headLastModified, hne, hp,
    Nat.not_lt.mpr hle]

theorem process_file_preserves (w : World) (fs fs' : FS) (data_dir : String)
    (yr : Nat) (http_url subdir href lm : String) (size : Nat)
    (st st' : Status) (e : Entry)
    (hok : process_file w fs data_dir yr http_url subdir href lm size st
            = .ok (fs', st'))
    (hcur : EntryCurrent fs data_dir yr e) :
    EntryCurrent fs' data_dir yr e := by
  obtain ⟨fi, t, hp, hfi, hle⟩ := hcur
  rcases process_file_ok_cases w fs data_dir yr http_url subdir href lm size
      st fs' st' hok with ⟨hnone, hw, -⟩ | ⟨fi2, t2, hfi2, hp2, hle2, hfs, -⟩
  · refine ⟨fi, t, hp, ?_, hle⟩
    rw [hw, FS.lookup_write, if_neg ?_]
    · exact hfi
    · intro heq
      rw [heq, hnone] at hfi
      cases hfi
  · rw [hfs]
    exact ⟨fi, t, hp, hfi, hle⟩

theorem process_file_establishes (w : World) (fs fs' : FS)
    (data_dir : String) (yr : Nat) (http_url subdir : String) (e : Entry)
    (st st' : Status) (t : Nat)
    (hok : process_file w fs data_dir yr http_url subdir e.href e.last_mod
            e.size st = .ok (fs', st'))
    (hp : parseDate e.last_mod = some t) (hnow : t ≤ w.now) :
    EntryCurrent fs' data_dir yr e := by
  rcases process_file_ok_cases w fs data_dir yr http_url subdir e.href
      e.last_mod e.size st fs' st' hok with
    ⟨hnone, hw, -⟩ | ⟨fi, t2, hfi, hp2, hle, hfs, -⟩
  · refine ⟨⟨w.now, w.respSize (furlOf http_url yr subdir e.href)⟩, t, hp,
      ?_, hnow⟩
    rw [hw, FS.lookup_write, if_pos rfl]
  · rw [hfs]
    exact ⟨fi, t2, hp2, hfi, hle⟩

theorem processSubdir_preserves (w : World) (data_dir : String) (yr : Nat)
    (http_url subdir : String) (entries : List Entry) :
    ∀ (done : List String) (fs : FS) (st : Status) (fsE : FS) (stE : Status),
      processSubdir w data_dir yr http_url subdir entries done fs st
        = .ok (fsE, stE) →
      ∀ e, EntryCurrent fs data_dir yr e → EntryCurrent fsE data_dir yr e := by
  induction entries with
  | nil =>
      intro done fs st fsE stE h e hc
      obtain ⟨h1, h2⟩ := Prod.mk.inj (Except.ok.inj h)
      exact h1 ▸ hc
  | cons a rest ih =>
      intro done fs st fsE stE h e hc
      by_cases hm : fileHrefRe a.href = true
      · by_cases hd : a.href ∈ done
        · simp only [processSubdir, if_pos hm, if_pos hd] at h
          exact ih done fs st fsE stE h e hc
        · cases hpf : process_file w fs data_dir yr http_url subdir a.href
              a.last_mod a.size st with
          | error p =>
              simp only [processSubdir, if_pos hm, if_neg hd, hpf] at h
              exact Except.noConfusion h
          | ok q =>
              obtain ⟨fs1, st1⟩ := q
              simp only [processSubdir, if_pos hm, if_neg hd, hpf] at h
              exact ih (done ++ [a.href]) fs1 st1 fsE stE h e
                (process_file_preserves w fs fs1 data_dir yr http_url subdir
                  a.href a.last_mod a.size st st1 e hpf hc)
      · simp only [processSubdir, if_neg hm] at h
        exact ih done fs st fsE stE h e hc

theorem processSubdir_second (w : World) (data_dir : String) (yr : Nat)
    (http_url subdir : String) (entries : List Entry) :
    ∀ (done : List String) (fs : FS) (st : Status) (fsE : FS) (stE : Status),
      (∀ e ∈ entries, ∃ t, parseDate e.last_mod = some t ∧ t ≤ w.now) →
      processSubdir w data_dir yr http_url subdir entries done fs st
        = .ok (fsE, stE) →
      ∀ fs2 : FS,
        (∀ e, EntryCurrent fsE data_dir yr e → EntryCurrent fs2 data_dir yr e) →
      ∀ (w2 : World) (st2 : Status),
        processSubdir w2 data_dir yr http_url subdir entries done fs2 st2
          = .ok (fs2, st2) := by
  induction entries with
  | nil => intro done fs st fsE stE _ _ fs2 _ w2 st2; rfl
  | cons a rest ih =>
      intro done fs st fsE stE hpt h fs2 hpres w2 st2
      have hptr : ∀ e ∈ rest, ∃ t, parseDate e.last_mod = some t ∧ t ≤ w.now :=
        fun e he => hpt e (List.mem_cons_of_mem a he)
      by_cases hm : fileHrefRe a.href = true
      · by_cases hd : a.href ∈ done
        · simp only [processSubdir, if_pos hm, if_pos hd] at h ⊢
          exact ih done fs st fsE stE hptr h fs2 hpres w2 st2
        · cases hpf : process_file w fs data_dir yr http_url subdir a.href
              a.last_mod a.size st with
          | error p =>
              simp only [processSubdir, if_pos hm, if_neg hd, hpf] at h
              exact Except.noConfusion h
          | ok q =>
              obtain ⟨fs1, st1⟩ := q
              simp only [processSubdir, if_pos hm, if_neg hd, hpf] at h
              obtain ⟨t, hp, hnow⟩ := hpt a (List.mem_cons_self a rest)
              have hcur1 : EntryCurrent fs1 data_dir yr a :=
                process_file_establishes w fs fs1 data_dir yr http_url subdir
                  a st st1 t hpf hp hnow
              have hcurE : EntryCurrent fsE data_dir yr a :=
                processSubdir_preserves w data_dir yr http_url subdir rest
                  (done ++ [a.href]) fs1 st1 fsE stE h a hcur1
              have hskip := process_file_skip w2 fs2 data_dir yr http_url
                subdir a st2 (hpres a hcurE)
              simp only [processSubdir, if_pos hm, if_neg hd, hskip]
              exact ih (done ++ [a.href]) fs1 st1 fsE stE hptr h fs2 hpres
                w2 st2
      · simp only [processSubdir, if_neg hm] at h ⊢
        exact ih done fs st fsE stE hptr h fs2 hpres w2 st2

theorem downloadYrAux_preserves (w : World) (http_url : String) (yr : Nat)
    (data_dir : String) (days : List String) (listing : List SubLink) :
    ∀ (fs : FS) (st : Status) (fsE : FS) (stE : Status),
      downloadYrAux w http_url yr data_dir days listing fs st
        = .ok (fsE, stE) →
      ∀ e, EntryCurrent fs data_dir yr e → EntryCurrent fsE data_dir yr e := by
  induction listing with
  | nil =>
      intro fs st fsE stE h e hc
      obtain ⟨h1, h2⟩ := Prod.mk.inj (Except.ok.inj h)
      exact h1 ▸ hc
  | cons link rest ih =>
      intro fs st fsE stE h e hc
      by_cases hday : dayLinkRe link.text = true
      · by_cases hkeep : keepSubdir days link.href = true
        · cases hps : processSubdir w data_dir yr http_url link.href
              link.entries [] fs st with
          | error p =>
              simp only [downloadYrAux, if_pos hday, if_pos hkeep, hps] at h
              exact Except.noConfusion h
          | ok q =>
              obtain ⟨fs1, st1⟩ := q
              simp only [downloadYrAux, if_pos hday, if_pos hkeep, hps] at h
              exact ih fs1 st1 fsE stE h e
                (processSubdir_preserves w data_dir yr http_url link.href
                  link.entries [] fs st fs1 st1 hps e hc)
        · simp only [downloadYrAux, if_pos hday, if_neg hkeep] at h
          exact ih fs st fsE stE h e hc
      · simp only [downloadYrAux, if_neg hday] at h
        exact ih fs st fsE stE h e hc

theorem downloadYrAux_second (w : World) (http_url : String) (yr : Nat)
    (data_dir : String) (days : List String) (listing : List SubLink) :
    ∀ (fs : FS) (st : Status) (fsE : FS) (stE : Status),
      (∀ l ∈ listing, ∀ e ∈ l.entries,
        ∃ t, parseDate e.last_mod = some t ∧ t ≤ w.now) →
      downloadYrAux w http_url yr data_dir days listing fs st
        = .ok (fsE, stE) →
      ∀ fs2 : FS,
        (∀ e, EntryCurrent fsE data_dir yr e → EntryCurrent fs2 data_dir yr e) →
      ∀ (w2 : World) (st2 : Status),
        downloadYrAux w2 http_url yr data_dir days listing fs2 st2
          = .ok (fs2, st2) := by
  induction listing with
  | nil => intro fs st fsE stE _ _ fs2 _ w2 st2; rfl
  | cons link rest ih =>
      intro fs st fsE stE hpt h fs2 hpres w2 st2
      have hptr : ∀ l ∈ rest, ∀ e ∈ l.entries,
          ∃ t, parseDate e.last_mod = some t ∧ t ≤ w.now :=
        fun l hl => hpt l (List.mem_cons_of_mem link hl)
      by_cases hday : dayLinkRe link.text = true
      · by_cases hkeep : keepSubdir days link.href = true
        · cases hps : processSubdir w data_dir yr http_url link.href
              link.entries [] fs st with
          | error p =>
              simp only [downloadYrAux, if_pos hday, if_pos hkeep, hps] at h
              exact Except.noConfusion h
          | ok q =>
              obtain ⟨fs1, st1⟩ := q
              simp only [downloadYrAux, if_pos hday, if_pos hkeep, hps] at h
              have hpres1 : ∀ e, EntryCurrent fs1 data_dir yr e →
                  EntryCurrent fs2 data_dir yr e :=
                fun e hce => hpres e
                  (downloadYrAux_preserves w http_url yr data_dir days rest
                    fs1 st1 fsE stE h e hce)
              have hskip := processSubdir_second w data_dir yr http_url
                link.href link.entries [] fs st fs1 st1
                (hpt link (List.mem_cons_self link rest)) hps fs2 hpres1
                w2 st2
              simp only [downloadYrAux, if_pos hday, if_pos hkeep, hskip]
              exact ih fs1 st1 fsE stE hptr h fs2 hpres w2 st2
        · simp only [downloadYrAux, if_pos hday, if_neg hkeep] at h ⊢
          exact ih fs st fsE stE hptr h fs2 hpres w2 st2
      · simp only [downloadYrAux, if_neg hday] at h ⊢
        exact ih fs st fsE stE hptr h fs2 hpres w2 st2

/-- C4: idempotence of the year orchestration.  If a first run over a listing
completes with a summary (in particular every first-run download succeeded:
the error list is empty), every remote timestamp in the listing parses, and
no remote entry is newer than the instant at which the first run stamps its
downloads ("no remote changes between the runs"), then a second run over the
same listing from the first run's final filesystem succeeds, changes nothing,
and returns a summary whose `new`, `updated` (and `error`) lists are all
empty: every entry is classified Skip. -/
theorem second_run_all_skip (w w2 : World) (listing : List SubLink)
    (http_url : String) (yr : Nat) (data_dir : String) (days : List String)
    (fs0 fs1 : FS) (st1 : Status)
    (hpt : ∀ l ∈ listing, ∀ e ∈ l.entries,
      ∃ t, parseDate e.last_mod = some t ∧ t ≤ w.now)
    (h1 : download_yr w listing http_url yr data_dir days fs0 = .ok (fs1, st1))
    (_hsucc : st1.error = []) :
    download_yr w2 listing http_url yr data_dir days fs1
      = .ok (fs1, ⟨[], [], []⟩) :=
  downloadYrAux_second w http_url yr data_dir days listing fs0 ⟨[], [], []⟩
    fs1 st1 hpt h1 fs1 (fun _ h => h) w2 ⟨[], [], []⟩

/-- Witness for C4: a concrete first run over an empty mirror downloads one
new file; the second run returns the all-empty summary. -/
theorem second_run_all_skip_witness :
    download_yr ⟨fun _ => 1200, 200, fun _ => "x"⟩
      [⟨"001/", "001/contents.html", [⟨"3B-HHR.a.HDF5.html", "50", 40⟩]⟩]
      "h" 2020 "d" [] [("d/2020/3B-HHR.a.nc", ⟨100, 1200⟩)]
      = .ok ([("d/2020/3B-HHR.a.nc", ⟨100, 1200⟩)], ⟨[], [], []⟩) :=
  second_run_all_skip ⟨fun _ => 1200, 100, fun _ => "x"⟩
    ⟨fun _ => 1200, 200, fun _ => "x"⟩
    [⟨"001/", "001/contents.html", [⟨"3B-HHR.a.HDF5.html", "50", 40⟩]⟩]
    "h" 2020 "d" [] [] [("d/2020/3B-HHR.a.nc", ⟨100, 1200⟩)]
    ⟨["d/2020/3B-HHR.a.nc"], [], []⟩
    (by
      intro l hl e he
      rw [List.mem_singleton] at hl
      subst hl
      rw [show (⟨"001/", "001/contents.html",
        [⟨"3B-HHR.a.HDF5.html", "50", 40⟩]⟩ : SubLink).entries
          = [⟨"3B-HHR.a.HDF5.html", "50", 40⟩] from rfl,
        List.mem_singleton] at he
      subst he
      exact ⟨50, rfl, by decide⟩)
    (by decide) rfl

end GPM
